import Mathlib

/-!
# XineteDecentralizedStorage — verified model

A shallow embedding of the on-chain metadata registry
(`contracts/XineteDecentralizedStorage.sol`) and of the IPFS upload
helper `uploadFileToIPFS` shown in `DECENTRALIZED.md`, together with
theorems settling the specification's claims about them.

Modelling conventions:
* `address` is `Nat`; `address(0)` is `0`.  Transaction senders are
  assumed non-zero (on Ethereum `msg.sender` is never the zero
  address); this assumption is an explicit hypothesis of the
  reachability relation.
* Solidity `mapping`s are total functions with the type's default
  value (`""`, `0`, the all-empty struct) standing for an unset key,
  exactly as in the EVM storage model.
* `keccak256(bytes(a)) == keccak256(bytes(b))` is modelled as string
  equality `a = b` (keccak collision-freeness).
* `block.timestamp` is an explicit `now : Nat` argument.
* A `require` failure reverts the whole transaction: each mutating
  function returns `Except Err State`, and `exec` keeps the old state
  on an error.  The revert reasons are classified into the spec's
  error taxonomy (`ValidationError`, `ConflictError`,
  `AuthorizationError`, `NotFoundError`) with the source's revert
  strings kept verbatim.
-/

abbrev Addr := Nat

/-- `struct MetadataInfo` of the contract. -/
structure MetadataInfo where
  cid : String
  hash : String
  timestamp : Nat
  nftName : String
  imageURI : String
deriving DecidableEq

/-- The default (all-zero) struct value, i.e. a deleted/unset mapping entry. -/
def emptyInfo : MetadataInfo :=
  { cid := "", hash := "", timestamp := 0, nftName := "", imageURI := "" }

/-- The contract's four storage mappings. -/
structure State where
  userMetadataCIDs : Addr → List String
  hashToCID : String → String
  cidToOwner : String → Addr
  cidToMetadataInfo : String → MetadataInfo

/-- Freshly deployed contract: every mapping holds default values. -/
def initialState : State :=
  { userMetadataCIDs := fun _ => []
    hashToCID := fun _ => ""
    cidToOwner := fun _ => 0
    cidToMetadataInfo := fun _ => emptyInfo }

/-- Revert reasons, classified into the spec's error taxonomy; the
message is the source's revert string. -/
inductive Err where
  | validationError (msg : String)
  | conflictError (msg : String)
  | authorizationError (msg : String)
  | notFoundError (msg : String)
deriving DecidableEq

/-- Number of occurrences of `a` in `l` (the multiplicity used to state
the owner-sequence invariant). -/
def countOcc (a : String) : List String → Nat
  | [] => 0
  | x :: xs => (if x = a then 1 else 0) + countOcc a xs

/-- Drop the first occurrence of `a` from `l` (specification-side helper
used to reason about the in-place loops of the contract). -/
def eraseFirst (a : String) : List String → List String
  | [] => []
  | x :: xs => if x = a then xs else x :: eraseFirst a xs

/-- The loop of `updateMetadata` (lines 82–87): replace the first
element keccak-equal to `old` by `new`, then `break`; no change when
`old` does not occur. -/
def replaceFirst (l : List String) (old new : String) : List String :=
  match l with
  | [] => []
  | x :: xs => if x = old then new :: xs else x :: replaceFirst xs old new

/-- `l[l.length - 1]` with default `""` — the value the remove loop
copies over the deleted slot. -/
def lastD : List String → String
  | [] => ""
  | [x] => x
  | _ :: y :: ys => lastD (y :: ys)

/-- The list with its last element popped (`userCIDs.pop()`). -/
def dropLastFn : List String → List String
  | [] => []
  | [_] => []
  | x :: y :: ys => x :: dropLastFn (y :: ys)

/-- The loop of `removeMetadata` (lines 122–130): find the first
element keccak-equal to `a`, overwrite it with the last element, pop
the last element, `break`; no change when `a` does not occur.

When the match is at the head of a non-empty tail, the overwritten
slot receives the last element of the *whole* list, which is the last
element of the tail; the recursion below therefore agrees with the
imperative loop. -/
def swapRemoveFirst : List String → String → List String
  | [], _ => []
  | x :: xs, a =>
    if x = a then
      match xs with
      | [] => []
      | y :: ys => lastD (y :: ys) :: dropLastFn (y :: ys)
    else
      x :: swapRemoveFirst xs a

/-- The storage state produced by the success path of `storeMetadata`
(lines 48–60). -/
def storedState (s : State) (sender : Addr) (now : Nat)
    (cid hsh nftName imageURI : String) : State :=
  { userMetadataCIDs := fun a =>
      if a = sender then s.userMetadataCIDs sender ++ [cid]
      else s.userMetadataCIDs a
    hashToCID := fun x => if x = hsh then cid else s.hashToCID x
    cidToOwner := fun c => if c = cid then sender else s.cidToOwner c
    cidToMetadataInfo := fun c =>
      if c = cid then
        { cid := cid, hash := hsh, timestamp := now,
          nftName := nftName, imageURI := imageURI }
      else s.cidToMetadataInfo c }

/-- `storeMetadata` (lines 42–63): four `require`s in source order,
then the writes of `storedState`. -/
def storeMetadata (s : State) (sender : Addr) (now : Nat)
    (cid hsh nftName imageURI : String) : Except Err State :=
  if cid = "" then .error (.validationError "CID cannot be empty")
  else if hsh = "" then .error (.validationError "Hash cannot be empty")
  else if s.cidToOwner cid ≠ 0 then .error (.conflictError "CID already registered")
  else if s.hashToCID hsh ≠ "" then .error (.conflictError "Hash already exists")
  else .ok (storedState s sender now cid hsh nftName imageURI)

/-- The storage state produced by the success path of `updateMetadata`
(lines 80–108).  `oldHash` is read before any deletion (line 90); for
each mapping the later write wins over the earlier `delete`, matching
the source order (delete old entry, then insert new entry). -/
def updatedState (s : State) (sender : Addr) (now : Nat)
    (oldCid newCid hsh nftName imageURI : String) : State :=
  { userMetadataCIDs := fun a =>
      if a = sender then replaceFirst (s.userMetadataCIDs sender) oldCid newCid
      else s.userMetadataCIDs a
    hashToCID := fun x =>
      if x = hsh then newCid
      else if x = (s.cidToMetadataInfo oldCid).hash then ""
      else s.hashToCID x
    cidToOwner := fun c =>
      if c = newCid then sender
      else if c = oldCid then 0
      else s.cidToOwner c
    cidToMetadataInfo := fun c =>
      if c = newCid then
        { cid := newCid, hash := hsh, timestamp := now,
          nftName := nftName, imageURI := imageURI }
      else if c = oldCid then emptyInfo
      else s.cidToMetadataInfo c }

/-- `updateMetadata` (lines 73–111): five `require`s in source order,
then the writes of `updatedState`. -/
def updateMetadata (s : State) (sender : Addr) (now : Nat)
    (oldCid newCid hsh nftName imageURI : String) : Except Err State :=
  if s.cidToOwner oldCid ≠ sender then
    .error (.authorizationError "Not the owner of this metadata")
  else if newCid = "" then .error (.validationError "New CID cannot be empty")
  else if hsh = "" then .error (.validationError "Hash cannot be empty")
  else if s.cidToOwner newCid ≠ 0 then
    .error (.conflictError "New CID already registered")
  else if s.hashToCID hsh ≠ "" then
    .error (.conflictError "New hash already exists")
  else .ok (updatedState s sender now oldCid newCid hsh nftName imageURI)

/-- The storage state produced by the success path of `removeMetadata`
(lines 120–138). -/
def removedState (s : State) (sender : Addr) (cid : String) : State :=
  { userMetadataCIDs := fun a =>
      if a = sender then swapRemoveFirst (s.userMetadataCIDs sender) cid
      else s.userMetadataCIDs a
    hashToCID := fun x =>
      if x = (s.cidToMetadataInfo cid).hash then "" else s.hashToCID x
    cidToOwner := fun c => if c = cid then 0 else s.cidToOwner c
    cidToMetadataInfo := fun c => if c = cid then emptyInfo else s.cidToMetadataInfo c }

/-- `removeMetadata` (lines 117–141): owner check, then the deletes of
`removedState`. -/
def removeMetadata (s : State) (sender : Addr) (cid : String) : Except Err State :=
  if s.cidToOwner cid ≠ sender then
    .error (.authorizationError "Not the owner of this metadata")
  else .ok (removedState s sender cid)

/-- `getCIDByHash` (lines 148–150). -/
def getCIDByHash (s : State) (hsh : String) : String :=
  s.hashToCID hsh

/-- `getUserMetadataCIDs` (lines 157–159). -/
def getUserMetadataCIDs (s : State) (user : Addr) : List String :=
  s.userMetadataCIDs user

/-- `getMetadataOwner` (lines 166–168). -/
def getMetadataOwner (s : State) (cid : String) : Addr :=
  s.cidToOwner cid

/-- `getMetadataInfo` (lines 175–178): reverts when the CID has no
owner. -/
def getMetadataInfo (s : State) (cid : String) : Except Err MetadataInfo :=
  if s.cidToOwner cid = 0 then .error (.notFoundError "Metadata does not exist")
  else .ok (s.cidToMetadataInfo cid)

/-- `verifyMetadata` (lines 186–189): owner is set *and* the hash index
maps `hsh` to `cid` (keccak equality of strings modelled as equality). -/
def verifyMetadata (s : State) (cid hsh : String) : Bool :=
  decide (s.cidToOwner cid ≠ 0) && decide (s.hashToCID hsh = cid)

/-- One registry transaction, with its sender and the block timestamp
the ledger assigns to it. -/
inductive Tx where
  | storeTx (sender : Addr) (now : Nat) (cid hsh nftName imageURI : String)
  | updateTx (sender : Addr) (now : Nat) (oldCid newCid hsh nftName imageURI : String)
  | removeTx (sender : Addr) (cid : String)

/-- The sender of a transaction. -/
def Tx.sender : Tx → Addr
  | .storeTx c _ _ _ _ _ => c
  | .updateTx c _ _ _ _ _ _ => c
  | .removeTx c _ => c

/-- Run one transaction against the contract. -/
def applyTx (s : State) : Tx → Except Err State
  | .storeTx c now cid hsh n u => storeMetadata s c now cid hsh n u
  | .updateTx c now o nw hsh n u => updateMetadata s c now o nw hsh n u
  | .removeTx c cid => removeMetadata s c cid

/-- Ledger semantics of a transaction: a reverted transaction leaves
the storage unchanged. -/
def exec (s : State) (t : Tx) : State :=
  match applyTx s t with
  | .ok s' => s'
  | .error _ => s

/-- Registry states reachable from deployment by successful
transactions whose senders are valid (non-zero) addresses. -/
inductive Reachable : State → Prop where
  | init : Reachable initialState
  | step : ∀ s s' t, Reachable s → Tx.sender t ≠ 0 → applyTx s t = .ok s' →
      Reachable s'

/-! ## List bookkeeping lemmas -/

theorem countOcc_append (a : String) :
    ∀ l m : List String, countOcc a (l ++ m) = countOcc a l + countOcc a m
  | [], m => by simp [countOcc]
  | x :: xs, m => by
      have ih := countOcc_append a xs m
      simp only [List.cons_append, countOcc, List.append_eq] at ih ⊢
      omega

theorem mem_iff_countOcc_pos (a : String) :
    ∀ l : List String, a ∈ l ↔ 0 < countOcc a l
  | [] => by simp [countOcc]
  | x :: xs => by
      have ih := mem_iff_countOcc_pos a xs
      by_cases hx : x = a
      · subst hx
        constructor
        · intro _
          have : countOcc x (x :: xs) = 1 + countOcc x xs := by
            simp [countOcc]
          omega
        · intro _
          exact List.mem_cons_self x xs
      · have hax : a ≠ x := fun h => hx h.symm
        simp only [countOcc, List.mem_cons, if_neg hx, hax, false_or, ih]
        omega

theorem countOcc_eraseFirst_self (a : String) :
    ∀ l : List String, a ∈ l → countOcc a (eraseFirst a l) + 1 = countOcc a l
  | [], h => absurd h (List.not_mem_nil a)
  | x :: xs, h => by
      by_cases hx : x = a
      · subst hx
        have h1 : eraseFirst x (x :: xs) = xs := by simp [eraseFirst]
        have h2 : countOcc x (x :: xs) = 1 + countOcc x xs := by simp [countOcc]
        rw [h1, h2]
        omega
      · have hxs : a ∈ xs := by
          rcases List.mem_cons.mp h with h' | h'
          · exact absurd h'.symm hx
          · exact h'
        have ih := countOcc_eraseFirst_self a xs hxs
        simp only [eraseFirst, if_neg hx, countOcc]
        omega

theorem countOcc_eraseFirst_ne (a b : String) (hba : b ≠ a) :
    ∀ l : List String, countOcc b (eraseFirst a l) = countOcc b l
  | [] => rfl
  | x :: xs => by
      have ih := countOcc_eraseFirst_ne a b hba xs
      by_cases hx : x = a
      · have hxb : x ≠ b := fun h => hba (h.symm.trans hx)
        simp only [eraseFirst, if_pos hx, countOcc, if_neg hxb, Nat.zero_add]
      · simp only [eraseFirst, if_neg hx, countOcc, ih]

theorem mem_of_mem_eraseFirst (a b : String) :
    ∀ l : List String, b ∈ eraseFirst a l → b ∈ l
  | [], h => absurd h (List.not_mem_nil b)
  | x :: xs, h => by
      by_cases hx : x = a
      · simp only [eraseFirst, if_pos hx] at h
        exact List.mem_cons_of_mem x h
      · simp only [eraseFirst, if_neg hx, List.mem_cons] at h
        rcases h with h | h
        · exact h ▸ List.mem_cons_self x xs
        · exact List.mem_cons_of_mem x (mem_of_mem_eraseFirst a b xs h)

theorem countOcc_lastD_dropLastFn (b : String) :
    ∀ l : List String, l ≠ [] → countOcc b (lastD l :: dropLastFn l) = countOcc b l
  | [], h => absurd rfl h
  | [x], _ => rfl
  | x :: y :: ys, _ => by
      have ih := countOcc_lastD_dropLastFn b (y :: ys) (by simp)
      simp only [lastD, dropLastFn, countOcc] at ih ⊢
      omega

theorem swapRemoveFirst_eq_of_not_mem (a : String) :
    ∀ l : List String, a ∉ l → swapRemoveFirst l a = l
  | [], _ => rfl
  | x :: xs, h => by
      have hx : x ≠ a := fun hxa => h (hxa ▸ List.mem_cons_self x xs)
      have hxs : a ∉ xs := fun hm => h (List.mem_cons_of_mem x hm)
      simp only [swapRemoveFirst, if_neg hx, swapRemoveFirst_eq_of_not_mem a xs hxs]

theorem countOcc_swapRemoveFirst (a : String) :
    ∀ l : List String, a ∈ l →
      ∀ b, countOcc b (swapRemoveFirst l a) = countOcc b (eraseFirst a l)
  | [], h => absurd h (List.not_mem_nil a)
  | x :: xs, h => by
      intro b
      by_cases hx : x = a
      · simp only [swapRemoveFirst, if_pos hx, eraseFirst]
        cases xs with
        | nil => rfl
        | cons y ys => exact countOcc_lastD_dropLastFn b (y :: ys) (by simp)
      · have hxs : a ∈ xs := by
          rcases List.mem_cons.mp h with h' | h'
          · exact absurd h'.symm hx
          · exact h'
        simp only [swapRemoveFirst, if_neg hx, eraseFirst, countOcc,
          countOcc_swapRemoveFirst a xs hxs b]

theorem replaceFirst_eq_of_not_mem (old new : String) :
    ∀ l : List String, old ∉ l → replaceFirst l old new = l
  | [], _ => rfl
  | x :: xs, h => by
      have hx : x ≠ old := fun hxa => h (hxa ▸ List.mem_cons_self x xs)
      have hxs : old ∉ xs := fun hm => h (List.mem_cons_of_mem x hm)
      simp only [replaceFirst, if_neg hx, replaceFirst_eq_of_not_mem old new xs hxs]

theorem countOcc_replaceFirst (old new : String) :
    ∀ l : List String, old ∈ l →
      ∀ b, countOcc b (replaceFirst l old new) =
        (if new = b then 1 else 0) + countOcc b (eraseFirst old l)
  | [], h => absurd h (List.not_mem_nil old)
  | x :: xs, h => by
      intro b
      by_cases hx : x = old
      · simp only [replaceFirst, if_pos hx, eraseFirst, countOcc]
      · have hxs : old ∈ xs := by
          rcases List.mem_cons.mp h with h' | h'
          · exact absurd h'.symm hx
          · exact h'
        have ih := countOcc_replaceFirst old new xs hxs b
        simp only [replaceFirst, if_neg hx, eraseFirst, countOcc, ih]
        omega

theorem replaceFirst_eq_set (old new : String) :
    ∀ l : List String, old ∈ l →
      ∃ i : Fin l.length, l.get i = old ∧ replaceFirst l old new = l.set i.val new
  | [], h => absurd h (List.not_mem_nil old)
  | x :: xs, h => by
      by_cases hx : x = old
      · exact ⟨⟨0, by simp⟩, hx, by simp only [replaceFirst, if_pos hx, List.set]⟩
      · have hxs : old ∈ xs := by
          rcases List.mem_cons.mp h with h' | h'
          · exact absurd h'.symm hx
          · exact h'
        obtain ⟨i, hget, hrepl⟩ := replaceFirst_eq_set old new xs hxs
        refine ⟨⟨i.val + 1, Nat.succ_lt_succ i.isLt⟩, ?_, ?_⟩
        · simpa using hget
        · simp only [replaceFirst, if_neg hx, List.set, hrepl]

/-! ## Success/failure characterization of the mutating transactions -/

theorem storeMetadata_ok_iff {s : State} {c : Addr} {now : Nat}
    {cid hsh n u : String} {s' : State} :
    storeMetadata s c now cid hsh n u = .ok s' ↔
      cid ≠ "" ∧ hsh ≠ "" ∧ s.cidToOwner cid = 0 ∧ s.hashToCID hsh = "" ∧
        s' = storedState s c now cid hsh n u := by
  unfold storeMetadata
  split_ifs with h1 h2 h3 h4 <;> simp_all [eq_comm]

theorem updateMetadata_ok_iff {s : State} {c : Addr} {now : Nat}
    {oldCid newCid hsh n u : String} {s' : State} :
    updateMetadata s c now oldCid newCid hsh n u = .ok s' ↔
      s.cidToOwner oldCid = c ∧ newCid ≠ "" ∧ hsh ≠ "" ∧
        s.cidToOwner newCid = 0 ∧ s.hashToCID hsh = "" ∧
        s' = updatedState s c now oldCid newCid hsh n u := by
  unfold updateMetadata
  split_ifs with h1 h2 h3 h4 h5 <;> simp_all [eq_comm]

theorem removeMetadata_ok_iff {s : State} {c : Addr} {cid : String} {s' : State} :
    removeMetadata s c cid = .ok s' ↔
      s.cidToOwner cid = c ∧ s' = removedState s c cid := by
  unfold removeMetadata
  split_ifs with h1 <;> simp_all [eq_comm]

theorem exec_eq_of_error {s : State} {t : Tx} {e : Err}
    (h : applyTx s t = .error e) : exec s t = s := by
  unfold exec
  rw [h]

/-! ## The inductive registry invariant -/

/-- The registry invariant, stated over the contract's four mappings.
`ownerMem`, `activeCount` and `hashIndex` are the spec's invariants 1
and 2; `ownerInfo` ties record existence (`cidToMetadataInfo`) to
ownership (`cidToOwner`); all five clauses together are inductive over
successful transactions with non-zero senders. -/
structure RegInv (s : State) : Prop where
  ownerMem : ∀ a cid, cid ∈ s.userMetadataCIDs a → s.cidToOwner cid = a ∧ a ≠ 0
  activeNonempty : ∀ cid, s.cidToOwner cid ≠ 0 → cid ≠ ""
  activeCount : ∀ cid, s.cidToOwner cid ≠ 0 →
    countOcc cid (s.userMetadataCIDs (s.cidToOwner cid)) = 1
  ownerInfo : ∀ cid, s.cidToOwner cid = 0 ↔ s.cidToMetadataInfo cid = emptyInfo
  hashIndex : ∀ hsh cid, cid ≠ "" →
    (s.hashToCID hsh = cid ↔
      s.cidToOwner cid ≠ 0 ∧ (s.cidToMetadataInfo cid).hash = hsh)

theorem regInv_initialState : RegInv initialState := by
  refine ⟨?_, ?_, ?_, ?_, ?_⟩
  · intro a cid h
    exact absurd h (List.not_mem_nil cid)
  · intro cid h
    exact absurd rfl h
  · intro cid h
    exact absurd rfl h
  · intro cid
    exact ⟨fun _ => rfl, fun _ => rfl⟩
  · intro hsh cid hne
    constructor
    · intro h
      exact absurd h.symm hne
    · intro h
      exact absurd rfl h.1

/-! ## Pointwise descriptions of the three success states -/

theorem storedState_cids (s : State) (c : Addr) (now : Nat)
    (cid hsh n u : String) (a : Addr) :
    (storedState s c now cid hsh n u).userMetadataCIDs a =
      if a = c then s.userMetadataCIDs c ++ [cid] else s.userMetadataCIDs a := rfl

theorem storedState_hash (s : State) (c : Addr) (now : Nat)
    (cid hsh n u : String) (x : String) :
    (storedState s c now cid hsh n u).hashToCID x =
      if x = hsh then cid else s.hashToCID x := rfl

theorem storedState_owner (s : State) (c : Addr) (now : Nat)
    (cid hsh n u : String) (x : String) :
    (storedState s c now cid hsh n u).cidToOwner x =
      if x = cid then c else s.cidToOwner x := rfl

theorem storedState_info (s : State) (c : Addr) (now : Nat)
    (cid hsh n u : String) (x : String) :
    (storedState s c now cid hsh n u).cidToMetadataInfo x =
      if x = cid then
        { cid := cid, hash := hsh, timestamp := now, nftName := n, imageURI := u }
      else s.cidToMetadataInfo x := rfl

theorem updatedState_cids (s : State) (c : Addr) (now : Nat)
    (oldCid newCid hsh n u : String) (a : Addr) :
    (updatedState s c now oldCid newCid hsh n u).userMetadataCIDs a =
      if a = c then replaceFirst (s.userMetadataCIDs c) oldCid newCid
      else s.userMetadataCIDs a := rfl

theorem updatedState_hash (s : State) (c : Addr) (now : Nat)
    (oldCid newCid hsh n u : String) (x : String) :
    (updatedState s c now oldCid newCid hsh n u).hashToCID x =
      if x = hsh then newCid
      else if x = (s.cidToMetadataInfo oldCid).hash then ""
      else s.hashToCID x := rfl

theorem updatedState_owner (s : State) (c : Addr) (now : Nat)
    (oldCid newCid hsh n u : String) (x : String) :
    (updatedState s c now oldCid newCid hsh n u).cidToOwner x =
      if x = newCid then c else if x = oldCid then 0 else s.cidToOwner x := rfl

theorem updatedState_info (s : State) (c : Addr) (now : Nat)
    (oldCid newCid hsh n u : String) (x : String) :
    (updatedState s c now oldCid newCid hsh n u).cidToMetadataInfo x =
      if x = newCid then
        { cid := newCid, hash := hsh, timestamp := now, nftName := n, imageURI := u }
      else if x = oldCid then emptyInfo
      else s.cidToMetadataInfo x := rfl

theorem removedState_cids (s : State) (c : Addr) (cid : String) (a : Addr) :
    (removedState s c cid).userMetadataCIDs a =
      if a = c then swapRemoveFirst (s.userMetadataCIDs c) cid
      else s.userMetadataCIDs a := rfl

theorem removedState_hash (s : State) (c : Addr) (cid : String) (x : String) :
    (removedState s c cid).hashToCID x =
      if x = (s.cidToMetadataInfo cid).hash then "" else s.hashToCID x := rfl

theorem removedState_owner (s : State) (c : Addr) (cid : String) (x : String) :
    (removedState s c cid).cidToOwner x =
      if x = cid then 0 else s.cidToOwner x := rfl

theorem removedState_info (s : State) (c : Addr) (cid : String) (x : String) :
    (removedState s c cid).cidToMetadataInfo x =
      if x = cid then emptyInfo else s.cidToMetadataInfo x := rfl

/-! ## Preservation of the invariant -/

theorem regInv_store {s : State} {c : Addr} {now : Nat}
    {cid hsh n u : String} {s' : State}
    (inv : RegInv s) (hc : c ≠ 0)
    (hok : storeMetadata s c now cid hsh n u = .ok s') : RegInv s' := by
  obtain ⟨hcid, hhsh, hown, hfree, rfl⟩ := storeMetadata_ok_iff.mp hok
  have hnotmem : ∀ a, cid ∉ s.userMetadataCIDs a := by
    intro a hmem
    obtain ⟨h1, h2⟩ := inv.ownerMem a cid hmem
    rw [hown] at h1
    exact h2 h1.symm
  refine ⟨?_, ?_, ?_, ?_, ?_⟩
  · intro a x hmem
    rw [storedState_cids] at hmem
    rw [storedState_owner]
    by_cases hac : a = c
    · subst hac
      rw [if_pos rfl] at hmem
      rcases List.mem_append.mp hmem with hmem | hmem
      · have h1 := (inv.ownerMem a x hmem).1
        have h2 := (inv.ownerMem a x hmem).2
        by_cases hx : x = cid
        · exact ⟨by rw [if_pos hx], h2⟩
        · exact ⟨by rw [if_neg hx]; exact h1, h2⟩
      · have hx : x = cid := List.mem_singleton.mp hmem
        exact ⟨by rw [if_pos hx], hc⟩
    · rw [if_neg hac] at hmem
      have h1 := (inv.ownerMem a x hmem).1
      have h2 := (inv.ownerMem a x hmem).2
      have hx : x ≠ cid := by
        intro hxe
        exact h2 (by rw [← h1, hxe, hown])
      exact ⟨by rw [if_neg hx]; exact h1, h2⟩
  · intro x hx
    rw [storedState_owner] at hx
    by_cases hxc : x = cid
    · exact hxc ▸ hcid
    · rw [if_neg hxc] at hx
      exact inv.activeNonempty x hx
  · intro x hx
    rw [storedState_owner] at hx ⊢
    by_cases hxc : x = cid
    · subst hxc
      rw [if_pos rfl] at hx ⊢
      rw [storedState_cids, if_pos rfl, countOcc_append]
      have h0 : countOcc x (s.userMetadataCIDs c) = 0 := by
        by_contra hpos
        exact hnotmem c ((mem_iff_countOcc_pos x (s.userMetadataCIDs c)).mpr
          (Nat.pos_of_ne_zero hpos))
      have h1 : countOcc x [x] = 1 := by simp [countOcc]
      omega
    · rw [if_neg hxc] at hx ⊢
      have hcount := inv.activeCount x hx
      rw [storedState_cids]
      by_cases hoc : s.cidToOwner x = c
      · rw [hoc] at hcount ⊢
        rw [if_pos rfl, countOcc_append]
        have hcx : cid ≠ x := fun h => hxc h.symm
        have h1 : countOcc x [cid] = 0 := by simp [countOcc, hcx]
        omega
      · rw [if_neg hoc]
        exact hcount
  · intro x
    rw [storedState_owner, storedState_info]
    by_cases hxc : x = cid
    · rw [if_pos hxc, if_pos hxc]
      constructor
      · intro h
        exact absurd h hc
      · intro h
        have := congrArg MetadataInfo.cid h
        simp only [emptyInfo] at this
        exact absurd this hcid
    · rw [if_neg hxc, if_neg hxc]
      exact inv.ownerInfo x
  · intro h' x hxne
    rw [storedState_hash, storedState_owner, storedState_info]
    by_cases hh : h' = hsh
    · rw [if_pos hh]
      by_cases hxc : x = cid
      · subst hxc
        rw [if_pos rfl, if_pos rfl]
        constructor
        · intro _
          exact ⟨hc, hh.symm⟩
        · intro _
          rfl
      · rw [if_neg hxc, if_neg hxc]
        constructor
        · intro hcx
          exact absurd hcx.symm hxc
        · intro hrs
          have hx : s.hashToCID hsh = x :=
            (inv.hashIndex hsh x hxne).mpr ⟨hrs.1, hrs.2.trans hh⟩
          rw [hfree] at hx
          exact absurd hx.symm hxne
    · rw [if_neg hh]
      by_cases hxc : x = cid
      · subst hxc
        rw [if_pos rfl, if_pos rfl]
        constructor
        · intro hcx
          have := (inv.hashIndex h' x hxne).mp hcx
          exact absurd this.1 (by rw [hown]; exact fun h => h rfl)
        · intro hrs
          exact absurd hrs.2.symm hh
      · rw [if_neg hxc, if_neg hxc]
        exact inv.hashIndex h' x hxne

theorem regInv_update {s : State} {c : Addr} {now : Nat}
    {oldCid newCid hsh n u : String} {s' : State}
    (inv : RegInv s) (hc : c ≠ 0)
    (hok : updateMetadata s c now oldCid newCid hsh n u = .ok s') : RegInv s' := by
  obtain ⟨hown, hnew, hhsh, hnew0, hfree, rfl⟩ := updateMetadata_ok_iff.mp hok
  have hoc : s.cidToOwner oldCid ≠ 0 := by rw [hown]; exact hc
  have holdne : oldCid ≠ "" := inv.activeNonempty oldCid hoc
  have hdiff : oldCid ≠ newCid := by
    intro h
    rw [h, hnew0] at hown
    exact hc hown.symm
  have hcount : countOcc oldCid (s.userMetadataCIDs c) = 1 := by
    have h := inv.activeCount oldCid hoc
    rw [hown] at h
    exact h
  have hmemold : oldCid ∈ s.userMetadataCIDs c :=
    (mem_iff_countOcc_pos oldCid (s.userMetadataCIDs c)).mpr (by omega)
  have hnewnotmem : ∀ a, newCid ∉ s.userMetadataCIDs a := by
    intro a hmem
    obtain ⟨h1, h2⟩ := inv.ownerMem a newCid hmem
    rw [hnew0] at h1
    exact h2 h1.symm
  have hoh : s.hashToCID ((s.cidToMetadataInfo oldCid).hash) = oldCid :=
    (inv.hashIndex _ oldCid holdne).mpr ⟨hoc, rfl⟩
  refine ⟨?_, ?_, ?_, ?_, ?_⟩
  · intro a x hmem
    rw [updatedState_cids] at hmem
    rw [updatedState_owner]
    by_cases hac : a = c
    · subst hac
      rw [if_pos rfl] at hmem
      have hx := (mem_iff_countOcc_pos x _).mp hmem
      rw [countOcc_replaceFirst oldCid newCid _ hmemold x] at hx
      by_cases hxn : x = newCid
      · exact ⟨by rw [if_pos hxn], hc⟩
      · have hnx : newCid ≠ x := fun h => hxn h.symm
        rw [if_neg hnx] at hx
        have hxe : x ∈ eraseFirst oldCid (s.userMetadataCIDs a) :=
          (mem_iff_countOcc_pos x _).mpr (by omega)
        have hxl : x ∈ s.userMetadataCIDs a := mem_of_mem_eraseFirst _ _ _ hxe
        have hxo : x ≠ oldCid := by
          intro h
          rw [h] at hxe
          have h0 := countOcc_eraseFirst_self oldCid (s.userMetadataCIDs a) hmemold
          have hpos := (mem_iff_countOcc_pos oldCid
            (eraseFirst oldCid (s.userMetadataCIDs a))).mp hxe
          omega
        obtain ⟨h1, h2⟩ := inv.ownerMem a x hxl
        rw [if_neg hxn, if_neg hxo]
        exact ⟨h1, h2⟩
    · rw [if_neg hac] at hmem
      obtain ⟨h1, h2⟩ := inv.ownerMem a x hmem
      have hxn : x ≠ newCid := by
        intro h
        rw [h, hnew0] at h1
        exact h2 h1.symm
      have hxo : x ≠ oldCid := by
        intro h
        rw [h, hown] at h1
        exact hac h1.symm
      rw [if_neg hxn, if_neg hxo]
      exact ⟨h1, h2⟩
  · intro x hx
    rw [updatedState_owner] at hx
    by_cases hxn : x = newCid
    · exact hxn ▸ hnew
    · rw [if_neg hxn] at hx
      by_cases hxo : x = oldCid
      · rw [if_pos hxo] at hx
        exact absurd rfl hx
      · rw [if_neg hxo] at hx
        exact inv.activeNonempty x hx
  · intro x hx
    rw [updatedState_owner] at hx ⊢
    rw [updatedState_cids]
    by_cases hxn : x = newCid
    · simp only [if_pos hxn, if_true] at hx ⊢
      rw [countOcc_replaceFirst oldCid newCid _ hmemold x, if_pos hxn.symm]
      have hnd : x ≠ oldCid := fun h => hdiff (h.symm.trans hxn)
      have e1 := countOcc_eraseFirst_ne oldCid x hnd (s.userMetadataCIDs c)
      have e2 : countOcc x (s.userMetadataCIDs c) = 0 := by
        by_contra hne
        have hmem2 : x ∈ s.userMetadataCIDs c :=
          (mem_iff_countOcc_pos x _).mpr (Nat.pos_of_ne_zero hne)
        rw [hxn] at hmem2
        exact hnewnotmem c hmem2
      omega
    · rw [if_neg hxn] at hx ⊢
      by_cases hxo : x = oldCid
      · rw [if_pos hxo] at hx
        exact absurd rfl hx
      · rw [if_neg hxo] at hx ⊢
        have hcnt := inv.activeCount x hx
        by_cases hoc2 : s.cidToOwner x = c
        · rw [hoc2] at hcnt ⊢
          rw [if_pos rfl, countOcc_replaceFirst oldCid newCid _ hmemold x]
          have e1 := countOcc_eraseFirst_ne oldCid x hxo (s.userMetadataCIDs c)
          have e2 : (if newCid = x then 1 else 0) = 0 :=
            if_neg (fun h => hxn h.symm)
          omega
        · rw [if_neg hoc2]
          exact hcnt
  · intro x
    rw [updatedState_owner, updatedState_info]
    by_cases hxn : x = newCid
    · simp only [if_pos hxn]
      constructor
      · intro h
        exact absurd h hc
      · intro h
        have h2 := congrArg MetadataInfo.cid h
        simp only [emptyInfo] at h2
        exact absurd h2 hnew
    · simp only [if_neg hxn]
      by_cases hxo : x = oldCid
      · simp [hxo]
      · simp only [if_neg hxo]
        exact inv.ownerInfo x
  · intro h' x hxne
    rw [updatedState_hash, updatedState_owner, updatedState_info]
    by_cases hh : h' = hsh
    · simp only [if_pos hh]
      by_cases hxn : x = newCid
      · simp only [if_pos hxn]
        constructor
        · intro _
          exact ⟨hc, hh.symm⟩
        · intro _
          exact hxn.symm
      · simp only [if_neg hxn]
        constructor
        · intro hcx
          exact absurd hcx.symm hxn
        · intro hrs
          by_cases hxo : x = oldCid
          · simp only [if_pos hxo] at hrs
            exact absurd rfl hrs.1
          · simp only [if_neg hxo] at hrs
            have hx2 : s.hashToCID hsh = x :=
              (inv.hashIndex hsh x hxne).mpr ⟨hrs.1, hrs.2.trans hh⟩
            rw [hfree] at hx2
            exact absurd hx2.symm hxne
    · simp only [if_neg hh]
      by_cases hho : h' = (s.cidToMetadataInfo oldCid).hash
      · simp only [if_pos hho]
        constructor
        · intro hcx
          exact absurd hcx.symm hxne
        · intro hrs
          by_cases hxn : x = newCid
          · simp only [if_pos hxn] at hrs
            exact absurd hrs.2.symm hh
          · simp only [if_neg hxn] at hrs
            by_cases hxo : x = oldCid
            · simp only [if_pos hxo] at hrs
              exact absurd rfl hrs.1
            · simp only [if_neg hxo] at hrs
              have hx2 : s.hashToCID ((s.cidToMetadataInfo oldCid).hash) = x :=
                (inv.hashIndex _ x hxne).mpr ⟨hrs.1, hrs.2.trans hho⟩
              rw [hoh] at hx2
              exact absurd hx2.symm hxo
      · simp only [if_neg hho]
        by_cases hxn : x = newCid
        · simp only [if_pos hxn]
          constructor
          · intro hcx
            have h2 := (inv.hashIndex h' x hxne).mp hcx
            have h3 := h2.1
            rw [hxn] at h3
            exact absurd hnew0 h3
          · intro hrs
            exact absurd hrs.2.symm hh
        · simp only [if_neg hxn]
          by_cases hxo : x = oldCid
          · simp only [if_pos hxo]
            constructor
            · intro hcx
              have h2 := (inv.hashIndex h' x hxne).mp hcx
              have h3 := h2.2
              rw [hxo] at h3
              exact absurd h3.symm hho
            · intro hrs
              exact absurd rfl hrs.1
          · simp only [if_neg hxo]
            exact inv.hashIndex h' x hxne

theorem regInv_remove {s : State} {c : Addr} {cid : String} {s' : State}
    (inv : RegInv s) (hc : c ≠ 0)
    (hok : removeMetadata s c cid = .ok s') : RegInv s' := by
  obtain ⟨hown, rfl⟩ := removeMetadata_ok_iff.mp hok
  have hoc : s.cidToOwner cid ≠ 0 := by rw [hown]; exact hc
  have hcidne : cid ≠ "" := inv.activeNonempty cid hoc
  have hcount : countOcc cid (s.userMetadataCIDs c) = 1 := by
    have h := inv.activeCount cid hoc
    rw [hown] at h
    exact h
  have hmem : cid ∈ s.userMetadataCIDs c :=
    (mem_iff_countOcc_pos cid (s.userMetadataCIDs c)).mpr (by omega)
  have hoh : s.hashToCID ((s.cidToMetadataInfo cid).hash) = cid :=
    (inv.hashIndex _ cid hcidne).mpr ⟨hoc, rfl⟩
  refine ⟨?_, ?_, ?_, ?_, ?_⟩
  · intro a x hmem2
    rw [removedState_cids] at hmem2
    rw [removedState_owner]
    by_cases hac : a = c
    · subst hac
      rw [if_pos rfl] at hmem2
      have hxc := (mem_iff_countOcc_pos x _).mp hmem2
      rw [countOcc_swapRemoveFirst cid _ hmem x] at hxc
      have hxe : x ∈ eraseFirst cid (s.userMetadataCIDs a) :=
        (mem_iff_countOcc_pos x _).mpr hxc
      have hxl : x ∈ s.userMetadataCIDs a := mem_of_mem_eraseFirst _ _ _ hxe
      have hxcid : x ≠ cid := by
        intro h
        rw [h] at hxe
        have h0 := countOcc_eraseFirst_self cid (s.userMetadataCIDs a) hmem
        have hpos := (mem_iff_countOcc_pos cid _).mp hxe
        omega
      obtain ⟨h1, h2⟩ := inv.ownerMem a x hxl
      rw [if_neg hxcid]
      exact ⟨h1, h2⟩
    · rw [if_neg hac] at hmem2
      obtain ⟨h1, h2⟩ := inv.ownerMem a x hmem2
      have hxcid : x ≠ cid := by
        intro h
        rw [h, hown] at h1
        exact hac h1.symm
      rw [if_neg hxcid]
      exact ⟨h1, h2⟩
  · intro x hx
    rw [removedState_owner] at hx
    by_cases hxc : x = cid
    · rw [if_pos hxc] at hx
      exact absurd rfl hx
    · rw [if_neg hxc] at hx
      exact inv.activeNonempty x hx
  · intro x hx
    rw [removedState_owner] at hx ⊢
    rw [removedState_cids]
    by_cases hxc : x = cid
    · rw [if_pos hxc] at hx
      exact absurd rfl hx
    · rw [if_neg hxc] at hx ⊢
      have hcnt := inv.activeCount x hx
      by_cases hoc2 : s.cidToOwner x = c
      · rw [hoc2] at hcnt ⊢
        rw [if_pos rfl, countOcc_swapRemoveFirst cid _ hmem x,
          countOcc_eraseFirst_ne cid x hxc]
        exact hcnt
      · rw [if_neg hoc2]
        exact hcnt
  · intro x
    rw [removedState_owner, removedState_info]
    by_cases hxc : x = cid
    · simp only [if_pos hxc]
    · simp only [if_neg hxc]
      exact inv.ownerInfo x
  · intro h' x hxne
    rw [removedState_hash, removedState_owner, removedState_info]
    by_cases hhr : h' = (s.cidToMetadataInfo cid).hash
    · simp only [if_pos hhr]
      constructor
      · intro hcx
        exact absurd hcx.symm hxne
      · intro hrs
        by_cases hxc : x = cid
        · simp only [if_pos hxc] at hrs
          exact absurd rfl hrs.1
        · simp only [if_neg hxc] at hrs
          have hx2 : s.hashToCID ((s.cidToMetadataInfo cid).hash) = x :=
            (inv.hashIndex _ x hxne).mpr ⟨hrs.1, hrs.2.trans hhr⟩
          rw [hoh] at hx2
          exact absurd hx2.symm hxc
    · simp only [if_neg hhr]
      by_cases hxc : x = cid
      · simp only [if_pos hxc]
        constructor
        · intro hcx
          have h2 := (inv.hashIndex h' x hxne).mp hcx
          have h3 := h2.2
          rw [hxc] at h3
          exact absurd h3.symm hhr
        · intro hrs
          exact absurd rfl hrs.1
      · simp only [if_neg hxc]
        exact inv.hashIndex h' x hxne

theorem regInv_applyTx {s s' : State} {t : Tx}
    (inv : RegInv s) (hns : Tx.sender t ≠ 0)
    (hok : applyTx s t = .ok s') : RegInv s' := by
  cases t with
  | storeTx c now cid hsh n u => exact regInv_store inv hns hok
  | updateTx c now o nw hsh n u => exact regInv_update inv hns hok
  | removeTx c cid => exact regInv_remove inv hns hok

theorem regInv_reachable {s : State} (h : Reachable s) : RegInv s := by
  induction h with
  | init => exact regInv_initialState
  | step s s' t _ hns hok ih => exact regInv_applyTx ih hns hok

/-! ## The IPFS upload helper of `DECENTRALIZED.md` (`uploadFileToIPFS`) -/

/-- The result of `ipfs.add` (the fields the helper reads). -/
structure AddResult where
  cid : String
  path : String
  size : Nat
deriving DecidableEq

/-- The slice of the IPFS client interface used by `uploadFileToIPFS`:
`add` (upload with `pin: true`) and `pin.add` (the explicit redundant
pin request), each of which can fail. -/
structure IPFSClient where
  add : String → List Nat → Except String AddResult
  pinAdd : String → Except String Unit

/-- The object literal `uploadFileToIPFS` resolves with. -/
structure UploadResult where
  cid : String
  path : String
  size : Nat
  gateway : String
  pinned : Bool
deriving DecidableEq

/-- `uploadFileToIPFS` (DECENTRALIZED.md lines 166–209): throws when no
client is configured; propagates an `ipfs.add` failure; catches a
failure of the explicit `ipfs.pin.add`, logging it and continuing to
the same return object, whose `pinned` field is the literal `true` in
both branches. -/
def uploadFileToIPFS (ipfs : Option IPFSClient) (ipfsGateway : String)
    (fileName : String) (content : List Nat) : Except String UploadResult :=
  match ipfs with
  | none => .error "IPFS client not initialized. Call initializeIPFS first."
  | some client =>
    match client.add fileName content with
    | .error e => .error e
    | .ok result =>
      match client.pinAdd result.cid with
      | .ok _ =>
        .ok { cid := result.cid, path := result.path, size := result.size,
              gateway := ipfsGateway ++ "/" ++ result.cid, pinned := true }
      | .error _ =>
        .ok { cid := result.cid, path := result.path, size := result.size,
              gateway := ipfsGateway ++ "/" ++ result.cid, pinned := true }

/-- A content store that accepts uploads but fails every explicit pin
request (the scenario of spec §8's last bullet). -/
def flakyPinClient : IPFSClient :=
  { add := fun p c => .ok { cid := "QmDemo", path := p, size := c.length }
    pinAdd := fun _ => .error "pin service unavailable" }

/-! ## Concrete demonstration states -/

/-- `storeMetadata("cidA", "hashA", …)` issued by address 1 at time 0. -/
def tx1 : Tx := .storeTx 1 0 "cidA" "hashA" "NFT One" "imgA"

/-- The registry after `tx1` on a fresh deployment. -/
def s1 : State := exec initialState tx1

theorem reach_s1 : Reachable s1 :=
  Reachable.step initialState s1 tx1 Reachable.init (by decide) rfl

/-- `updateMetadata("cidA", "cidB", "hashB", …)` issued by address 1 at
time 7. -/
def tx2 : Tx := .updateTx 1 7 "cidA" "cidB" "hashB" "NFT One v2" "imgB"

/-- The registry after `tx1; tx2`. -/
def s2 : State := exec s1 tx2

theorem reach_s2 : Reachable s2 :=
  Reachable.step s1 s2 tx2 reach_s1 (by decide) rfl

/-! ## Claims -/

/-- C1: in every registry state reachable from the empty state by
successful store, update and remove transactions, every identifier with
an active record has a non-zero owner and appears exactly once in that
owner's `userMetadataCIDs` sequence, and the hash index is the exact
inverse of the record hashes (`hashToCID hsh = id` iff the active
record of `id` has integrity hash `hsh`), so no two active records
share a hash. -/
theorem C1_registry_invariants (s : State) (hr : Reachable s) :
    (∀ id, s.cidToMetadataInfo id ≠ emptyInfo →
      s.cidToOwner id ≠ 0 ∧
      countOcc id (s.userMetadataCIDs (s.cidToOwner id)) = 1) ∧
    (∀ hsh id, id ≠ "" →
      (s.hashToCID hsh = id ↔
        s.cidToMetadataInfo id ≠ emptyInfo ∧
          (s.cidToMetadataInfo id).hash = hsh)) ∧
    (∀ id1 id2, s.cidToMetadataInfo id1 ≠ emptyInfo →
      s.cidToMetadataInfo id2 ≠ emptyInfo →
      (s.cidToMetadataInfo id1).hash = (s.cidToMetadataInfo id2).hash →
      id1 = id2) := by
  have inv := regInv_reachable hr
  have hact : ∀ id, s.cidToMetadataInfo id ≠ emptyInfo ↔ s.cidToOwner id ≠ 0 := by
    intro id
    constructor
    · intro h hz
      exact h ((inv.ownerInfo id).mp hz)
    · intro h hinfo
      exact h ((inv.ownerInfo id).mpr hinfo)
  refine ⟨?_, ?_, ?_⟩
  · intro id hid
    have h0 := (hact id).mp hid
    exact ⟨h0, inv.activeCount id h0⟩
  · intro hsh id hidne
    have hix := inv.hashIndex hsh id hidne
    constructor
    · intro h
      have h2 := hix.mp h
      exact ⟨(hact id).mpr h2.1, h2.2⟩
    · intro h
      exact hix.mpr ⟨(hact id).mp h.1, h.2⟩
  · intro id1 id2 h1 h2 hh
    have ho1 := (hact id1).mp h1
    have ho2 := (hact id2).mp h2
    have hn1 : id1 ≠ "" := inv.activeNonempty id1 ho1
    have hn2 : id2 ≠ "" := inv.activeNonempty id2 ho2
    have e1 : s.hashToCID ((s.cidToMetadataInfo id1).hash) = id1 :=
      (inv.hashIndex _ id1 hn1).mpr ⟨ho1, rfl⟩
    have e2 : s.hashToCID ((s.cidToMetadataInfo id2).hash) = id2 :=
      (inv.hashIndex _ id2 hn2).mpr ⟨ho2, rfl⟩
    rw [hh] at e1
    exact e1.symm.trans e2

/-- Witness for C1, evaluated in the reachable state `s1`. -/
theorem C1_registry_invariants_witness :
    s1.cidToOwner "cidA" ≠ 0 ∧
    countOcc "cidA" (s1.userMetadataCIDs (s1.cidToOwner "cidA")) = 1 :=
  (C1_registry_invariants s1 reach_s1).1 "cidA" (by decide)

/-- C2: for every non-empty identifier and hash that are both free, a
store by caller `c` succeeds, after which the hash resolves to the
identifier, the stored record carries the hash, the caller owns the
identifier, and the identifier was appended at the end of the caller's
sequence. -/
theorem C2_store_success (s : State) (c : Addr) (now : Nat)
    (id hsh nft img : String)
    (hc : c ≠ 0) (hid : id ≠ "") (hh : hsh ≠ "")
    (hfree1 : s.cidToOwner id = 0) (hfree2 : s.hashToCID hsh = "") :
    ∃ s', storeMetadata s c now id hsh nft img = .ok s' ∧
      getCIDByHash s' hsh = id ∧
      (∃ r, getMetadataInfo s' id = .ok r ∧ r.hash = hsh) ∧
      getMetadataOwner s' id = c ∧
      s'.userMetadataCIDs c = s.userMetadataCIDs c ++ [id] := by
  refine ⟨storedState s c now id hsh nft img,
    storeMetadata_ok_iff.mpr ⟨hid, hh, hfree1, hfree2, rfl⟩, ?_, ?_, ?_, ?_⟩
  · unfold getCIDByHash
    rw [storedState_hash, if_pos rfl]
  · have hrec : getMetadataInfo (storedState s c now id hsh nft img) id =
        .ok { cid := id, hash := hsh, timestamp := now,
              nftName := nft, imageURI := img } := by
      unfold getMetadataInfo
      rw [storedState_owner, if_pos rfl, if_neg hc, storedState_info, if_pos rfl]
    exact ⟨_, hrec, rfl⟩
  · unfold getMetadataOwner
    rw [storedState_owner, if_pos rfl]
  · rw [storedState_cids, if_pos rfl]

/-- Witness for C2, evaluated on a fresh deployment. -/
theorem C2_store_success_witness :
    ∃ s', storeMetadata initialState 1 0 "cidA" "hashA" "NFT One" "imgA" = .ok s' ∧
      getCIDByHash s' "hashA" = "cidA" ∧
      (∃ r, getMetadataInfo s' "cidA" = .ok r ∧ r.hash = "hashA") ∧
      getMetadataOwner s' "cidA" = 1 ∧
      s'.userMetadataCIDs 1 = initialState.userMetadataCIDs 1 ++ ["cidA"] :=
  C2_store_success initialState 1 0 "cidA" "hashA" "NFT One" "imgA"
    (by decide) (by decide) (by decide) rfl rfl

/-- C7: `verifyMetadata` is a total Boolean view (it never reverts) and
returns `true` iff the identifier has an active record and the hash
index maps the hash to that identifier; in every other case it returns
`false`. -/
theorem C7_verify_iff (s : State) (cid hsh : String) :
    verifyMetadata s cid hsh = true ↔
      (s.cidToOwner cid ≠ 0 ∧ s.hashToCID hsh = cid) := by
  simp [verifyMetadata]

/-- C3 counterexample: in the reachable state `s1` the hash "hashA" is
already in the hash index, yet `storeMetadata` called with an empty
identifier and that very hash fails with `ValidationError`, not with
the `ConflictError` the claim requires whenever the hash is taken. -/
theorem C3_counterexample :
    s1.hashToCID "hashA" ≠ "" ∧
    storeMetadata s1 2 0 "" "hashA" "n" "u" =
      .error (.validationError "CID cannot be empty") ∧
    ¬ ∃ m, storeMetadata s1 2 0 "" "hashA" "n" "u" =
      .error (.conflictError m) := by
  refine ⟨by decide, rfl, ?_⟩
  rintro ⟨m, hm⟩
  rw [show storeMetadata s1 2 0 "" "hashA" "n" "u" =
      .error (.validationError "CID cannot be empty") from rfl] at hm
  exact Err.noConfusion (Except.error.inj hm)

/-- C3 (amended): the emptiness checks run first, so `storeMetadata`
fails with `ValidationError` whenever the identifier or the hash is
empty; when both are non-empty it fails with `ConflictError` whenever
the identifier already has an owner or the hash is already in the
index; and every failure reverts the transaction, leaving all indices
unchanged. -/
theorem C3_store_failures (s : State) (c : Addr) (now : Nat)
    (id hsh nft img : String) :
    ((id = "" ∨ hsh = "") →
      ∃ m, storeMetadata s c now id hsh nft img =
        .error (.validationError m)) ∧
    (id ≠ "" → hsh ≠ "" → (s.cidToOwner id ≠ 0 ∨ s.hashToCID hsh ≠ "") →
      ∃ m, storeMetadata s c now id hsh nft img =
        .error (.conflictError m)) ∧
    (∀ e, storeMetadata s c now id hsh nft img = .error e →
      exec s (.storeTx c now id hsh nft img) = s) := by
  refine ⟨?_, ?_, ?_⟩
  · intro h
    unfold storeMetadata
    by_cases h1 : id = ""
    · rw [if_pos h1]
      exact ⟨_, rfl⟩
    · rw [if_neg h1]
      have h2 : hsh = "" := h.resolve_left h1
      rw [if_pos h2]
      exact ⟨_, rfl⟩
  · intro h1 h2 h3
    unfold storeMetadata
    rw [if_neg h1, if_neg h2]
    by_cases h4 : s.cidToOwner id ≠ 0
    · rw [if_pos h4]
      exact ⟨_, rfl⟩
    · rw [if_neg h4]
      have h5 : s.hashToCID hsh ≠ "" := h3.resolve_left h4
      rw [if_pos h5]
      exact ⟨_, rfl⟩
  · intro e he
    exact @exec_eq_of_error s (.storeTx c now id hsh nft img) e he

/-- Witness for the amended C3, on the reachable state `s1`. -/
theorem C3_store_failures_witness :
    (∃ m, storeMetadata s1 2 0 "" "hashA" "n" "u" =
      .error (.validationError m)) ∧
    (∃ m, storeMetadata s1 2 0 "cidA" "hashX" "n" "u" =
      .error (.conflictError m)) ∧
    exec s1 (.storeTx 2 0 "" "hashA" "n" "u") = s1 :=
  ⟨(C3_store_failures s1 2 0 "" "hashA" "n" "u").1 (Or.inl rfl),
   (C3_store_failures s1 2 0 "cidA" "hashX" "n" "u").2.1
     (by decide) (by decide) (Or.inl (by decide)),
   (C3_store_failures s1 2 0 "" "hashA" "n" "u").2.2
     (.validationError "CID cannot be empty") rfl⟩

/-- C4 counterexample: in the reachable state `s1`, address 1 owns
"cidA" and "hashB" is a fresh non-empty hash, so the claim asserts that
`update("cidA", "cidA", "hashB", …)` succeeds — but it fails with
`ConflictError "New CID already registered"`. -/
theorem C4_counterexample :
    s1.cidToOwner "cidA" = 1 ∧ (1 : Addr) ≠ 0 ∧
    ("hashB" : String) ≠ "" ∧ s1.hashToCID "hashB" = "" ∧
    updateMetadata s1 1 9 "cidA" "cidA" "hashB" "n" "u" =
      .error (.conflictError "New CID already registered") :=
  ⟨rfl, by decide, by decide, rfl, rfl⟩

/-- C4 (amended): a self-update (`newIdentifier = oldIdentifier`) by
the owner, with a non-empty fresh hash, always fails with
`ConflictError "New CID already registered"`: the contract has no
exemption for `newIdentifier = oldIdentifier`, so an in-place hash
refresh is impossible. -/
theorem C4_self_update_conflict (s : State) (c : Addr) (now : Nat)
    (oldId hsh nft img : String)
    (hr : Reachable s) (hc : c ≠ 0) (hown : s.cidToOwner oldId = c)
    (hh : hsh ≠ "") (hfree : s.hashToCID hsh = "") :
    updateMetadata s c now oldId oldId hsh nft img =
      .error (.conflictError "New CID already registered") := by
  have inv := regInv_reachable hr
  have hoc : s.cidToOwner oldId ≠ 0 := by rw [hown]; exact hc
  have hne : oldId ≠ "" := inv.activeNonempty oldId hoc
  unfold updateMetadata
  rw [if_neg (show ¬s.cidToOwner oldId ≠ c from fun h2 => h2 hown),
    if_neg hne, if_neg hh, if_pos hoc]

/-- Witness for the amended C4, on the reachable state `s1`. -/
theorem C4_self_update_conflict_witness :
    updateMetadata s1 1 9 "cidA" "cidA" "hashB" "n" "u" =
      .error (.conflictError "New CID already registered") :=
  C4_self_update_conflict s1 1 9 "cidA" "hashB" "n" "u" reach_s1
    (by decide) rfl (by decide) rfl

/-- C5: after a successful owner update with a distinct new identifier,
the old record's hash resolves to the empty sentinel, the new hash to
the new identifier, the old identifier has no owner, and the new
identifier replaces the old one at exactly the position the old one
occupied in the owner's sequence (in reachable states the old
identifier is always found there, so the append fallback never
applies). -/
theorem C5_update_effects (s : State) (c : Addr) (now : Nat)
    (oldId newId hsh nft img : String) (s' : State)
    (hr : Reachable s) (hc : c ≠ 0) (hne : newId ≠ oldId)
    (hok : updateMetadata s c now oldId newId hsh nft img = .ok s') :
    getCIDByHash s' ((s.cidToMetadataInfo oldId).hash) = "" ∧
    getCIDByHash s' hsh = newId ∧
    getMetadataOwner s' oldId = 0 ∧
    newId ∈ s'.userMetadataCIDs c ∧
    oldId ∉ s'.userMetadataCIDs c ∧
    (∃ i : Fin (s.userMetadataCIDs c).length,
      (s.userMetadataCIDs c).get i = oldId ∧
      s'.userMetadataCIDs c = (s.userMetadataCIDs c).set i.val newId) := by
  have inv := regInv_reachable hr
  obtain ⟨hown, hnew, hhsh, hnew0, hfree, rfl⟩ := updateMetadata_ok_iff.mp hok
  have hoc : s.cidToOwner oldId ≠ 0 := by rw [hown]; exact hc
  have holdne : oldId ≠ "" := inv.activeNonempty oldId hoc
  have hcount : countOcc oldId (s.userMetadataCIDs c) = 1 := by
    have h := inv.activeCount oldId hoc
    rw [hown] at h
    exact h
  have hmemold : oldId ∈ s.userMetadataCIDs c :=
    (mem_iff_countOcc_pos oldId _).mpr (by omega)
  have hoh : s.hashToCID ((s.cidToMetadataInfo oldId).hash) = oldId :=
    (inv.hashIndex _ oldId holdne).mpr ⟨hoc, rfl⟩
  have hohne : (s.cidToMetadataInfo oldId).hash ≠ hsh := by
    intro h
    rw [h, hfree] at hoh
    exact holdne hoh.symm
  refine ⟨?_, ?_, ?_, ?_, ?_, ?_⟩
  · unfold getCIDByHash
    rw [updatedState_hash, if_neg hohne, if_pos rfl]
  · unfold getCIDByHash
    rw [updatedState_hash, if_pos rfl]
  · unfold getMetadataOwner
    rw [updatedState_owner, if_neg (fun h => hne h.symm), if_pos rfl]
  · rw [updatedState_cids, if_pos rfl]
    apply (mem_iff_countOcc_pos newId _).mpr
    rw [countOcc_replaceFirst oldId newId _ hmemold newId, if_pos rfl]
    omega
  · rw [updatedState_cids, if_pos rfl]
    intro hmem2
    have hp := (mem_iff_countOcc_pos oldId _).mp hmem2
    rw [countOcc_replaceFirst oldId newId _ hmemold oldId, if_neg hne] at hp
    have h0 := countOcc_eraseFirst_self oldId (s.userMetadataCIDs c) hmemold
    omega
  · obtain ⟨i, hget, hrepl⟩ := replaceFirst_eq_set oldId newId _ hmemold
    refine ⟨i, hget, ?_⟩
    rw [updatedState_cids, if_pos rfl, hrepl]

/-- Witness for C5: the update `tx2` on the reachable state `s1`. -/
theorem C5_update_effects_witness :
    getCIDByHash s2 ((s1.cidToMetadataInfo "cidA").hash) = "" ∧
    getCIDByHash s2 "hashB" = "cidB" ∧
    getMetadataOwner s2 "cidA" = 0 ∧
    "cidB" ∈ s2.userMetadataCIDs 1 ∧
    "cidA" ∉ s2.userMetadataCIDs 1 ∧
    (∃ i : Fin (s1.userMetadataCIDs 1).length,
      (s1.userMetadataCIDs 1).get i = "cidA" ∧
      s2.userMetadataCIDs 1 = (s1.userMetadataCIDs 1).set i.val "cidB") :=
  C5_update_effects s1 1 7 "cidA" "cidB" "hashB" "NFT One v2" "imgB" s2
    reach_s1 (by decide) (by decide) rfl

/-- C6: `removeMetadata` succeeds iff the caller owns the identifier:
a non-owner gets `AuthorizationError` with all indices unchanged; the
owner's removal deletes the record from all three indices
(swap-removing the identifier from the owner's sequence), after which
`getMetadataInfo` fails with `NotFoundError` and the removed record's
hash resolves to the empty sentinel. -/
theorem C6_remove (s : State) (c : Addr) (id : String)
    (hr : Reachable s) (hc : c ≠ 0) :
    (s.cidToOwner id ≠ c →
      removeMetadata s c id =
        .error (.authorizationError "Not the owner of this metadata") ∧
      exec s (.removeTx c id) = s) ∧
    (s.cidToOwner id = c →
      ∃ s', removeMetadata s c id = .ok s' ∧
        getMetadataInfo s' id = .error (.notFoundError "Metadata does not exist") ∧
        getCIDByHash s' ((s.cidToMetadataInfo id).hash) = "" ∧
        getMetadataOwner s' id = 0 ∧
        s'.cidToMetadataInfo id = emptyInfo ∧
        s'.userMetadataCIDs c = swapRemoveFirst (s.userMetadataCIDs c) id ∧
        id ∉ s'.userMetadataCIDs c) := by
  constructor
  · intro hno
    have herr : removeMetadata s c id =
        .error (.authorizationError "Not the owner of this metadata") := by
      unfold removeMetadata
      rw [if_pos hno]
    exact ⟨herr, @exec_eq_of_error s (.removeTx c id) _ herr⟩
  · intro hown
    have inv := regInv_reachable hr
    have hoc : s.cidToOwner id ≠ 0 := by rw [hown]; exact hc
    have hcount : countOcc id (s.userMetadataCIDs c) = 1 := by
      have h := inv.activeCount id hoc
      rw [hown] at h
      exact h
    have hmem : id ∈ s.userMetadataCIDs c :=
      (mem_iff_countOcc_pos id _).mpr (by omega)
    refine ⟨removedState s c id, removeMetadata_ok_iff.mpr ⟨hown, rfl⟩,
      ?_, ?_, ?_, ?_, ?_, ?_⟩
    · unfold getMetadataInfo
      rw [removedState_owner, if_pos rfl, if_pos rfl]
    · unfold getCIDByHash
      rw [removedState_hash, if_pos rfl]
    · unfold getMetadataOwner
      rw [removedState_owner, if_pos rfl]
    · rw [removedState_info, if_pos rfl]
    · rw [removedState_cids, if_pos rfl]
    · rw [removedState_cids, if_pos rfl]
      intro hmem2
      have hp := (mem_iff_countOcc_pos id _).mp hmem2
      rw [countOcc_swapRemoveFirst id _ hmem id] at hp
      have h0 := countOcc_eraseFirst_self id (s.userMetadataCIDs c) hmem
      omega

/-- Witness for C6: a non-owner rejection and an owner removal on the
reachable state `s1`. -/
theorem C6_remove_witness :
    (removeMetadata s1 2 "cidA" =
      .error (.authorizationError "Not the owner of this metadata") ∧
     exec s1 (.removeTx 2 "cidA") = s1) ∧
    (∃ s', removeMetadata s1 1 "cidA" = .ok s' ∧
      getMetadataInfo s' "cidA" =
        .error (.notFoundError "Metadata does not exist") ∧
      getCIDByHash s' ((s1.cidToMetadataInfo "cidA").hash) = "" ∧
      getMetadataOwner s' "cidA" = 0 ∧
      s'.cidToMetadataInfo "cidA" = emptyInfo ∧
      s'.userMetadataCIDs 1 = swapRemoveFirst (s1.userMetadataCIDs 1) "cidA" ∧
      "cidA" ∉ s'.userMetadataCIDs 1) :=
  ⟨(C6_remove s1 2 "cidA" reach_s1 (by decide)).1 (by decide),
   (C6_remove s1 1 "cidA" reach_s1 (by decide)).2 rfl⟩

/-- C8: removal is not a permanent tombstone: after the owner removes
an identifier, a store of the same identifier with a fresh non-empty
hash succeeds even for a different caller, and the identifier is active
again under the new owner. -/
theorem C8_reregistration (s : State) (c c2 : Addr) (now : Nat)
    (id hsh2 nft img : String)
    (hr : Reachable s) (hc : c ≠ 0) (hc2 : c2 ≠ 0)
    (hown : s.cidToOwner id = c)
    (hh2 : hsh2 ≠ "") (hfree : s.hashToCID hsh2 = "") :
    ∃ sr sf, removeMetadata s c id = .ok sr ∧
      storeMetadata sr c2 now id hsh2 nft img = .ok sf ∧
      getMetadataOwner sf id = c2 ∧
      getCIDByHash sf hsh2 = id := by
  have inv := regInv_reachable hr
  have hoc : s.cidToOwner id ≠ 0 := by rw [hown]; exact hc
  have hidne : id ≠ "" := inv.activeNonempty id hoc
  have h1 : (removedState s c id).cidToOwner id = 0 := by
    rw [removedState_owner, if_pos rfl]
  have h2 : (removedState s c id).hashToCID hsh2 = "" := by
    rw [removedState_hash]
    by_cases hcase : hsh2 = (s.cidToMetadataInfo id).hash
    · rw [if_pos hcase]
    · rw [if_neg hcase]
      exact hfree
  refine ⟨removedState s c id,
    storedState (removedState s c id) c2 now id hsh2 nft img,
    removeMetadata_ok_iff.mpr ⟨hown, rfl⟩,
    storeMetadata_ok_iff.mpr ⟨hidne, hh2, h1, h2, rfl⟩, ?_, ?_⟩
  · unfold getMetadataOwner
    rw [storedState_owner, if_pos rfl]
  · unfold getCIDByHash
    rw [storedState_hash, if_pos rfl]

/-- Witness for C8: address 2 re-registers "cidA" after address 1
removed it. -/
theorem C8_reregistration_witness :
    ∃ sr sf, removeMetadata s1 1 "cidA" = .ok sr ∧
      storeMetadata sr 2 3 "cidA" "hashC" "reborn" "img2" = .ok sf ∧
      getMetadataOwner sf "cidA" = 2 ∧
      getCIDByHash sf "hashC" = "cidA" :=
  C8_reregistration s1 1 2 3 "cidA" "hashC" "reborn" "img2" reach_s1
    (by decide) (by decide) rfl (by decide) rfl

/-- C9 counterexample: against a store that accepts uploads but fails
every explicit pin request, `uploadFileToIPFS` returns the upload
result without raising — but with `pinned: true`, not the
`pinned: false` the claim states. -/
theorem C9_counterexample :
    uploadFileToIPFS (some flakyPinClient) "https://gw" "art.png" [0, 1, 2] =
      .ok { cid := "QmDemo", path := "art.png", size := 3,
            gateway := "https://gw/QmDemo", pinned := true } ∧
    ¬ ∃ r : UploadResult,
      uploadFileToIPFS (some flakyPinClient) "https://gw" "art.png" [0, 1, 2] =
        .ok r ∧ r.pinned = false := by
  constructor
  · rfl
  · rintro ⟨r, hr2, hp⟩
    rw [show uploadFileToIPFS (some flakyPinClient) "https://gw" "art.png" [0, 1, 2] =
        .ok { cid := "QmDemo", path := "art.png", size := 3,
              gateway := "https://gw/QmDemo", pinned := true } from rfl] at hr2
    have hre := Except.ok.inj hr2
    rw [← hre] at hp
    exact Bool.noConfusion hp

/-- C9 (amended): when the upload succeeds and the explicit pin request
fails, `uploadFileToIPFS` does not raise and still returns the upload
result carrying the identifier and size, but it reports `pinned: true`
(both branches of the inner try/catch flow into the same return object,
whose `pinned` field is the literal `true`). -/
theorem C9_upload_pin_failure (client : IPFSClient) (gw fileName : String)
    (content : List Nat) (r : AddResult) (e : String)
    (hadd : client.add fileName content = .ok r)
    (hpin : client.pinAdd r.cid = .error e) :
    uploadFileToIPFS (some client) gw fileName content =
      .ok { cid := r.cid, path := r.path, size := r.size,
            gateway := gw ++ "/" ++ r.cid, pinned := true } := by
  simp only [uploadFileToIPFS, hadd, hpin]

/-- Witness for the amended C9, on the flaky-pin client. -/
theorem C9_upload_pin_failure_witness :
    uploadFileToIPFS (some flakyPinClient) "https://gw" "art2.png" [5] =
      .ok { cid := "QmDemo", path := "art2.png", size := 1,
            gateway := "https://gw/QmDemo", pinned := true } :=
  C9_upload_pin_failure flakyPinClient "https://gw" "art2.png" [5]
    { cid := "QmDemo", path := "art2.png", size := 1 }
    "pin service unavailable" rfl rfl

/-- C10: a successful update stamps the record stored under the new
identifier with the ledger time of the update transaction, not the
creation time of the original record, so `getMetadataInfo` reports the
latest update time rather than first registration. -/
theorem C10_update_timestamp (s : State) (c : Addr) (now : Nat)
    (oldCid newCid hsh nft img : String) (s' : State)
    (hc : c ≠ 0)
    (hok : updateMetadata s c now oldCid newCid hsh nft img = .ok s') :
    (∃ r, getMetadataInfo s' newCid = .ok r ∧ r.timestamp = now) ∧
    ((s.cidToMetadataInfo oldCid).timestamp ≠ now →
      (s'.cidToMetadataInfo newCid).timestamp ≠
        (s.cidToMetadataInfo oldCid).timestamp) := by
  obtain ⟨hown, hnew, hhsh, hnew0, hfree, rfl⟩ := updateMetadata_ok_iff.mp hok
  constructor
  · have hrec : getMetadataInfo (updatedState s c now oldCid newCid hsh nft img)
        newCid = .ok { cid := newCid, hash := hsh, timestamp := now,
                       nftName := nft, imageURI := img } := by
      unfold getMetadataInfo
      rw [updatedState_owner, if_pos rfl, if_neg hc, updatedState_info, if_pos rfl]
    exact ⟨_, hrec, rfl⟩
  · intro hne
    rw [updatedState_info, if_pos rfl]
    exact fun h => hne h.symm

/-- Witness for C10: `tx1` stores at time 0, `tx2` updates at time 7. -/
theorem C10_update_timestamp_witness :
    (∃ r, getMetadataInfo s2 "cidB" = .ok r ∧ r.timestamp = 7) ∧
    ((s1.cidToMetadataInfo "cidA").timestamp ≠ 7 →
      (s2.cidToMetadataInfo "cidB").timestamp ≠
        (s1.cidToMetadataInfo "cidA").timestamp) :=
  C10_update_timestamp s1 1 7 "cidA" "cidB" "hashB" "NFT One v2" "imgB" s2
    (by decide) rfl
